import Mathlib

/-!
Verification of the assetmin reconciliation-and-cache engine.

The Go sources are embedded shallowly: byte content is `List Char`,
maps from icon ids to booleans become lists of registered ids, the
external minifier and the file system are abstract function parameters,
and every stateful method becomes a pure function from the old record to
the new record (paired with the returned error, `Option String`, when
the Go method can fail).
-/

set_option autoImplicit false
set_option maxRecDepth 10000

namespace Assetmin

/-- Whitespace test used by the embeddings of `strings.TrimSpace`.
Covers the ASCII whitespace characters (the sources only process ASCII
content at the positions where trimming matters). -/
def goIsSpace (c : Char) : Bool :=
  c = ' ' || c = '\t' || c = '\n' || c = '\r' || c = '\x0b' || c = '\x0c'

/-- Embedding of `strings.TrimSpace`: drop whitespace from both ends. -/
def trimSpace (s : List Char) : List Char :=
  ((s.dropWhile goIsSpace).reverse.dropWhile goIsSpace).reverse

/-- ASCII lower casing of a character list, embedding `strings.ToLower`
on the ASCII inputs handled here. -/
def lowerChars (s : List Char) : List Char :=
  s.map Char.toLower

/-- ASCII lower casing of a string, embedding `strings.ToLower`. -/
def lowerStr (s : String) : String :=
  String.mk (lowerChars s.data)

/-- Number of (possibly overlapping) occurrences of `p` as a contiguous
substring of `s`; used to state the sprite nesting guard. -/
def countSubstr (p : List Char) : List Char → Nat
  | [] => 0
  | c :: rest => (if p.isPrefixOf (c :: rest) then 1 else 0) + countSubstr p rest

/-- Substring membership test (Go `strings.Contains`). -/
def containsSub (p : List Char) : List Char → Bool
  | [] => p.isPrefixOf []
  | c :: rest => p.isPrefixOf (c :: rest) || containsSub p rest

/-- Embedding of `strings.Index` followed by the slicing the callers do:
split `s` around the first occurrence of `pat`, or `none` when `pat`
does not occur. -/
def splitFirst (pat : List Char) : List Char → Option (List Char × List Char)
  | [] => if pat.isPrefixOf ([] : List Char) then some ([], []) else none
  | c :: rest =>
    if pat.isPrefixOf (c :: rest) then some ([], (c :: rest).drop pat.length)
    else
      match splitFirst pat rest with
      | some (pre, post) => some (c :: pre, post)
      | none => none

/-- Embedding of `strings.Split` with a one-character separator. -/
def splitOnChar (sep : Char) : List Char → List (List Char)
  | [] => [[]]
  | c :: rest =>
    match splitOnChar sep rest with
    | [] => [[c]]
    | h :: t => if c = sep then [] :: h :: t else (c :: h) :: t

/-- Embedding of `strings.Join` with a one-character separator. -/
def joinWithChar (sep : Char) : List (List Char) → List Char
  | [] => []
  | [l] => l
  | l :: rest => l ++ sep :: joinWithChar sep rest

/-- A `contentFile` value: a logical identity (path) plus raw bytes. -/
structure contentFile where
  path : String
  content : List Char
  deriving Repr, DecidableEq

/-- The per-bundle handler state of `asset`.  The mutex is dropped (the
embedding is sequential), and the `initCode` provider is represented by
the deterministic result it returns (`none` embeds a nil provider). -/
structure asset where
  fileOutputName : String
  outputPath : String
  mediatype : String
  initCode : Option (Except String (List Char))
  contentOpen : List contentFile
  contentMiddle : List contentFile
  contentClose : List contentFile
  cachedMinified : List Char
  cacheValid : Bool

/-- Process configuration (only the field the embedded code reads). -/
structure Config where
  OutputDir : String

/-- Embedding of `newAssetFile`.  `filepath.Join` is embedded as plain
separator concatenation, which agrees with it on the clean inputs used
here. -/
def newAssetFile (outputName mediatype : String) (ac : Config)
    (initCode : Option (Except String (List Char))) : asset :=
  { fileOutputName := outputName
    outputPath := ac.OutputDir ++ "/" ++ outputName
    mediatype := mediatype
    initCode := initCode
    contentOpen := []
    contentMiddle := []
    contentClose := []
    cachedMinified := []
    cacheValid := false }

/-- Embedding of `findFileIndex`: index of the first entry with the
given path; the Go sentinel `-1` becomes `none`. -/
def findFileIndex (files : List contentFile) (filePath : String) : Option Nat :=
  files.findIdx? (fun f => f.path == filePath)

/-- Embedding of `(*asset).UpdateContent`.  The cache is invalidated
first; `create|write|modify` replace an exact-path match in place, else
relocate the first byte-equal entry, else append; `remove|delete` erase
the exact-path match; `rename` and unknown events leave the body alone. -/
def UpdateContent (h : asset) (filePath event : String) (f : contentFile) : asset :=
  let files := h.contentMiddle
  let files' :=
    if event == "create" || event == "write" || event == "modify" then
      match findFileIndex files filePath with
      | some idx => files.set idx f
      | none =>
        match files.findIdx? (fun g => g.content == f.content) with
        | some i => files.set i { path := filePath, content := f.content }
        | none => files ++ [f]
    else if event == "remove" || event == "delete" then
      match findFileIndex files filePath with
      | some idx => files.eraseIdx idx
      | none => files
    else files
  { h with cacheValid := false, contentMiddle := files' }

/-- One section of `(*asset).WriteContent`: each file's content followed
by a newline. -/
def sectionChars : List contentFile → List Char
  | [] => []
  | f :: rest => f.content ++ '\n' :: sectionChars rest

/-- Embedding of `(*asset).WriteContent`: initializer output (silently
dropped when the provider errors), then the open, middle and close
sections. -/
def WriteContent (h : asset) : List Char :=
  (match h.initCode with
   | some (Except.ok s) => s
   | _ => []) ++
  sectionChars h.contentOpen ++ sectionChars h.contentMiddle ++ sectionChars h.contentClose

/-- The external minification engine, keyed by media type: an abstract
deterministic function returning minified bytes or an error. -/
def Minifier : Type := String → List Char → Except String (List Char)

/-- Embedding of `(*asset).InvalidateCache`. -/
def InvalidateCache (h : asset) : asset :=
  { h with cacheValid := false }

/-- Embedding of `(*asset).RegenerateCache`: minify the concatenated
content; on success store it and mark the cache valid, on error return
the error leaving the handler untouched. -/
def RegenerateCache (m : Minifier) (h : asset) : Option String × asset :=
  match m h.mediatype (WriteContent h) with
  | Except.error e => (some e, h)
  | Except.ok minified => (none, { h with cachedMinified := minified, cacheValid := true })

/-- Embedding of `(*asset).GetCachedMinified`. -/
def GetCachedMinified (h : asset) : List Char :=
  h.cachedMinified

/-- Embedding of `(*asset).GetMinifiedContent` (the double-checked
locking collapses to a single check in the sequential embedding): serve
the cache when valid, otherwise regenerate. -/
def GetMinifiedContent (m : Minifier) (h : asset) : Except String (List Char) × asset :=
  if h.cacheValid then (Except.ok h.cachedMinified, h)
  else
    match m h.mediatype (WriteContent h) with
    | Except.error e => (Except.error e, h)
    | Except.ok minified =>
      (Except.ok minified, { h with cachedMinified := minified, cacheValid := true })

/-- Embedding of `NewSvgHandler`: the sprite bundle pre-wired with its
own `<svg>`/`<defs>` prologue and epilogue units. -/
def NewSvgHandler (ac : Config) (outputName : String) : asset :=
  let svgh := newAssetFile outputName "image/svg+xml" ac none
  { svgh with
    contentOpen := svgh.contentOpen ++
      [{ path := "sprite-open.svg"
         content := ("<svg class=\"sprite-icons\" xmlns=\"http://www.w3.org/2000/svg\" role=\"img\" aria-hidden=\"true\" focusable=\"false\">\n\t\t<defs>").toList }]
    contentClose := svgh.contentClose ++
      [{ path := "sprite-close.svg"
         content := ("\t\t</defs>\n\t</svg>").toList }] }

/-- Embedding of `NewFaviconSvgHandler`. -/
def NewFaviconSvgHandler (ac : Config) (outputName : String) : asset :=
  newAssetFile outputName "image/svg+xml" ac none

/-- Character class accepted in XML names by the scanner below. -/
def isNameChar (c : Char) : Bool :=
  c.isAlphanum || c = '-' || c = '_' || c = ':' || c = '.'

/-- Drop characters up to and including the first occurrence of `c`. -/
def dropThroughChar (c : Char) : List Char → List Char
  | [] => []
  | x :: xs => if x = c then xs else dropThroughChar c xs

/-- Span on a boolean predicate, returning the matched prefix and the
remainder. -/
def spanP (p : Char → Bool) : List Char → List Char × List Char
  | [] => ([], [])
  | c :: cs =>
    if p c then
      match spanP p cs with
      | (a, b) => (c :: a, b)
    else ([], c :: cs)

/-- The local part of an XML name: everything after the first colon
(`encoding/xml` splits a name into namespace prefix and local part). -/
def localName (nm : List Char) : String :=
  match splitFirst [':'] nm with
  | some (_, post) => String.mk post
  | none => String.mk nm

/-- Attribute scanner for a start tag, modelling the `encoding/xml`
decoder on the fragment forms handled here: whitespace-separated
`name="value"` (or single-quoted) pairs up to `>` or `/>`; anything
malformed yields `none` (the decoder error that makes `addIcon` keep the
default viewBox).  The fuel argument only forces termination; callers
pass more fuel than there are characters. -/
def parseAttrs : Nat → List Char → Option (List (String × String))
  | 0, _ => none
  | fuel + 1, s =>
    let s1 := s.dropWhile goIsSpace
    match s1 with
    | [] => none
    | '>' :: _ => some []
    | '/' :: rest =>
      match rest with
      | '>' :: _ => some []
      | _ => none
    | _ =>
      match spanP isNameChar s1 with
      | (nm, r1) =>
        if nm.isEmpty then none
        else
          match (r1.dropWhile goIsSpace : List Char) with
          | '=' :: r3 =>
            match (r3.dropWhile goIsSpace : List Char) with
            | q :: r5 =>
              if q = '"' || q = '\'' then
                match spanP (fun c => c != q) r5 with
                | (v, r6) =>
                  match r6 with
                  | _ :: r7 =>
                    match parseAttrs fuel r7 with
                    | some rest => some ((localName nm, String.mk v) :: rest)
                    | none => none
                  | [] => none
              else none
            | [] => none
          | _ => none

/-- First start element of a document, modelling the token loop of the
`encoding/xml` decoder on the fragment forms handled here: leading
character data is skipped, comments/directives/processing instructions
are skipped to their closing `>`, an end tag or malformed input stops
the scan (`none`), and the first start tag yields its local name and
attributes. -/
def firstStartElement : Nat → List Char → Option (String × List (String × String))
  | 0, _ => none
  | _ + 1, [] => none
  | fuel + 1, c :: rest =>
    if c = '<' then
      match rest with
      | '!' :: r2 => firstStartElement fuel (dropThroughChar '>' r2)
      | '?' :: r2 => firstStartElement fuel (dropThroughChar '>' r2)
      | '/' :: _ => none
      | _ =>
        match spanP isNameChar rest with
        | (nm, r1) =>
          if nm.isEmpty then none
          else
            match parseAttrs (fuel + 1) r1 with
            | some attrs => some (localName nm, attrs)
            | none => none
    else firstStartElement fuel rest

/-- The viewBox extraction of `addIcon`: inspect the first start
element; when its local name is `svg`, take the value of its (last)
`viewBox` attribute. -/
def extractSvgViewBox (svgContent : List Char) : Option String :=
  match firstStartElement (svgContent.length + 1) svgContent with
  | some (nm, attrs) =>
    if nm = "svg" then (attrs.reverse.find? (fun a => a.1 == "viewBox")).map Prod.snd
    else none
  | none => none

/-- The wrapper stripping of `addIcon`: when the trimmed content starts
with `<svg` and ends with `</svg>`, keep only the slice between the end
of the opening tag and the closing tag. -/
def stripSvgWrapper (svgContent : List Char) : List Char :=
  let trimmed := trimSpace svgContent
  if ("<svg".toList.isPrefixOf trimmed && "</svg>".toList.isSuffixOf trimmed) then
    match trimmed.findIdx? (fun c => c == '>') with
    | some endOpen => (trimmed.drop (endOpen + 1)).take (trimmed.length - 6 - (endOpen + 1))
    | none => svgContent
  else svgContent

/-- The `<symbol>` unit built by `addIcon` for one icon. -/
def symbolContent (id : String) (svgContent : List Char) : List Char :=
  "<symbol id=\"".toList ++ id.toList ++ "\" viewBox=\"".toList ++
    ((extractSvgViewBox svgContent).getD "0 0 16 16").toList ++ "\">".toList ++
    stripSvgWrapper svgContent ++ "</symbol>".toList

/-- The `AssetMin` registry state.  `registeredIconIDs` embeds the
`map[string]bool` as the list of registered ids; `ssrActive` embeds
`isSSRMode()` and `onSSRCompile` the error the external SSR compile
callback returns (`none` for a nil error). -/
structure AssetMin where
  ssrActive : Bool
  onSSRCompile : Option String
  buildOnDisk : Bool
  mainStyleCssHandler : asset
  mainJsHandler : asset
  spriteSvgHandler : asset
  faviconSvgHandler : asset
  indexHtmlHandler : asset
  registeredIconIDs : List String

/-- Modelled from the spec: the `AddContentMiddle` helper called by
`addIcon` and the injection methods is absent from the provided sources;
per the spec it appends the unit to the bundle's body sequence via the
standard append path and invalidates its cache (this also matches the
inline form the older revisions of the callers use). -/
def AddContentMiddle (h : asset) (path : String) (content : List Char) : asset :=
  { h with
    contentMiddle := h.contentMiddle ++ [{ path := path, content := content }]
    cacheValid := false }

/-- Embedding of `(*AssetMin).addIcon`: reject an already registered id
with a distinct error, otherwise register it and append the `<symbol>`
unit (default viewBox `0 0 16 16`, outer `<svg>` wrapper stripped) to
the sprite bundle's body. -/
def addIcon (c : AssetMin) (id : String) (svgContent : List Char) :
    Option String × AssetMin :=
  if c.registeredIconIDs.contains id then
    (some ("icon already registered: " ++ id), c)
  else
    let c := { c with registeredIconIDs := id :: c.registeredIconIDs }
    (none, { c with
      spriteSvgHandler :=
        AddContentMiddle c.spriteSvgHandler (id ++ ".svg") (symbolContent id svgContent) })

/-- Registration of a batch of icons through `addIcon`, as the component
registration loop does; stops at the first error. -/
def addIconList (c : AssetMin) : List (String × List Char) → Option String × AssetMin
  | [] => (none, c)
  | (id, raw) :: rest =>
    match addIcon c id raw with
    | (some e, c') => (some e, c')
    | (none, c') => addIconList c' rest

/-- Modelled from the spec: `stripLeadingUseStrict` is absent from the
provided sources (only its unit tests and its call sites are); it
removes one leading `use strict` directive — optional leading
whitespace, the single- or double-quoted directive and an optional
semicolon — and otherwise returns the input unchanged. -/
def stripLeadingUseStrict (b : List Char) : List Char :=
  let t := b.dropWhile goIsSpace
  if "\"use strict\"".toList.isPrefixOf t then dropSemi (t.drop 12)
  else if "'use strict'".toList.isPrefixOf t then dropSemi (t.drop 12)
  else b
where
  dropSemi : List Char → List Char
    | ';' :: r => r
    | xs => xs

/-- Modelled from the spec: the full-document guard of the HTML merge
path is absent from the provided sources (only its tests describe it);
a candidate fragment that, trimmed, starts with a doctype declaration
and ends with a closing `</html>` tag is a complete document and must
not be merged. -/
def isFullHtmlDocument (content : List Char) : Bool :=
  let t := lowerChars (trimSpace content)
  "<!doctype".toList.isPrefixOf t && "</html>".toList.isSuffixOf t

/-- Embedding of `filepath.Base`: the last separator-delimited
component. -/
def baseName (p : String) : String :=
  String.mk ((splitOnChar '/' p.data).getLastD [])

/-- Which of the five bundles an event was dispatched to. -/
inductive HKind where
  | css | js | spriteSvg | faviconSvg | html
  deriving Repr, DecidableEq

/-- Read one bundle handler out of the registry. -/
def getHandler (c : AssetMin) : HKind → asset
  | HKind.css => c.mainStyleCssHandler
  | HKind.js => c.mainJsHandler
  | HKind.spriteSvg => c.spriteSvgHandler
  | HKind.faviconSvg => c.faviconSvgHandler
  | HKind.html => c.indexHtmlHandler

/-- Write one bundle handler back into the registry. -/
def setHandler (c : AssetMin) (k : HKind) (h : asset) : AssetMin :=
  match k with
  | HKind.css => { c with mainStyleCssHandler := h }
  | HKind.js => { c with mainJsHandler := h }
  | HKind.spriteSvg => { c with spriteSvgHandler := h }
  | HKind.faviconSvg => { c with faviconSvgHandler := h }
  | HKind.html => { c with indexHtmlHandler := h }

/-- Embedding of `(*AssetMin).UpdateFileContentInMemory`: dispatch by
extension (`.js` content is first stripped of a leading `use strict`
directive, `.svg` events for the favicon output name go to the favicon
bundle, and — per the spec-modelled guard `isFullHtmlDocument` — a full
HTML document is skipped without error); unknown extensions error. -/
def UpdateFileContentInMemory (c : AssetMin) (filePath extension event : String)
    (content : List Char) : Except String (HKind × AssetMin) :=
  let file : contentFile := { path := filePath, content := content }
  if extension == ".css" then
    Except.ok (HKind.css,
      { c with mainStyleCssHandler := UpdateContent c.mainStyleCssHandler filePath event file })
  else if extension == ".js" then
    let file : contentFile := { path := filePath, content := stripLeadingUseStrict content }
    Except.ok (HKind.js,
      { c with mainJsHandler := UpdateContent c.mainJsHandler filePath event file })
  else if extension == ".svg" then
    if baseName filePath == c.faviconSvgHandler.fileOutputName then
      Except.ok (HKind.faviconSvg,
        { c with faviconSvgHandler := UpdateContent c.faviconSvgHandler filePath event file })
    else
      Except.ok (HKind.spriteSvg,
        { c with spriteSvgHandler := UpdateContent c.spriteSvgHandler filePath event file })
  else if extension == ".html" then
    if isFullHtmlDocument content then Except.ok (HKind.html, c)
    else
      Except.ok (HKind.html,
        { c with indexHtmlHandler := UpdateContent c.indexHtmlHandler filePath event file })
  else
    Except.error ("UpdateFileContentInMemory extension: " ++ extension ++ " not found " ++ filePath)

/-- Embedding of `(*AssetMin).processAsset`: always regenerate the
touched bundle's cache, then (when building on disk) hand the minified
bytes to the abstract disk-write collaborator `disk`. -/
def processAsset (m : Minifier) (disk : String → List Char → Option String)
    (c : AssetMin) (k : HKind) : Option String × AssetMin :=
  match RegenerateCache m (getHandler c k) with
  | (some e, _) => (some e, c)
  | (none, h') =>
    let c' := setHandler c k h'
    if c.buildOnDisk then (disk h'.outputPath (GetCachedMinified h'), c')
    else (none, c')

/-- Embedding of `(*AssetMin).isOutputPath`: the normalized event path
equals one of the five output paths, compared exactly or
case-insensitively.  `filepath.Clean` is external; it is passed in as
the abstract normalization `clean`. -/
def isOutputPath (clean : String → String) (c : AssetMin) (filePath : String) : Bool :=
  let normalizedFilePath := clean filePath
  let cssOutputPath := clean c.mainStyleCssHandler.outputPath
  let jsOutputPath := clean c.mainJsHandler.outputPath
  let svgOutputPath := clean c.spriteSvgHandler.outputPath
  let faviconOutputPath := clean c.faviconSvgHandler.outputPath
  let htmlOutputPath := clean c.indexHtmlHandler.outputPath
  (normalizedFilePath == cssOutputPath ||
   normalizedFilePath == jsOutputPath ||
   normalizedFilePath == svgOutputPath ||
   normalizedFilePath == faviconOutputPath ||
   normalizedFilePath == htmlOutputPath) ||
  (lowerStr normalizedFilePath == lowerStr cssOutputPath ||
   lowerStr normalizedFilePath == lowerStr jsOutputPath ||
   lowerStr normalizedFilePath == lowerStr svgOutputPath ||
   lowerStr normalizedFilePath == lowerStr faviconOutputPath ||
   lowerStr normalizedFilePath == lowerStr htmlOutputPath)

/-- Embedding of `(*AssetMin).NewFileEvent`.  The file system is the
abstract read function `fs`; the fixed settling sleep is a timing
workaround with no sequential content and is not modelled.  In SSR mode
the event is delegated to the external compile callback; events for the
engine's own output files are skipped; otherwise the content is read
(empty for remove/delete), merged in memory, and the touched bundle is
reprocessed. -/
def NewFileEvent (fs : String → Except String (List Char)) (clean : String → String)
    (m : Minifier) (disk : String → List Char → Option String) (c : AssetMin)
    (extension filePath event : String) : Option String × AssetMin :=
  if c.ssrActive then (c.onSSRCompile, c)
  else if isOutputPath clean c filePath then (none, c)
  else
    let e := "NewFileEvent " ++ extension ++ " " ++ event
    if filePath = "" then (some (e ++ "filePath is empty"), c)
    else
      let readResult : Except String (List Char) :=
        if event == "remove" || event == "delete" then Except.ok []
        else fs filePath
      match readResult with
      | Except.error er => (some (e ++ er), c)
      | Except.ok content =>
        match UpdateFileContentInMemory c filePath extension event content with
        | Except.error er => (some (e ++ er), c)
        | Except.ok (k, c') => processAsset m disk c' k

/-- The `<main>` scan of `parseExistingHtmlContent`: walk the lines with
the running index `i` and the `inMain` flag; a line containing `<main>`
(after trim and lower casing) sets the flag and is skipped; once the
flag is set, the first line containing `</main>` is the split index;
`0` means no split point was found (exactly the Go sentinel). -/
def findMainIdx : Nat → Bool → List (List Char) → Nat
  | _, _, [] => 0
  | i, inMain, l :: rest =>
    let ll := lowerChars (trimSpace l)
    if containsSub "<main".toList ll then findMainIdx (i + 1) true rest
    else if inMain && containsSub "</main>".toList ll then i
    else findMainIdx (i + 1) inMain rest

/-- The `<script>` scan of `parseExistingHtmlContent`: index of the
first line containing `<script` (lower-cased, untrimmed); `0` when
absent or when the match is on the first line (the Go sentinel). -/
def findScriptIdx : Nat → List (List Char) → Nat
  | _, [] => 0
  | i, l :: rest =>
    if containsSub "<script".toList (lowerChars l) then i else findScriptIdx (i + 1) rest

/-- The `</body>` scan of `parseExistingHtmlContent`. -/
def findBodyIdx : Nat → List (List Char) → Nat
  | _, [] => 0
  | i, l :: rest =>
    if containsSub "</body>".toList (lowerChars l) then i else findBodyIdx (i + 1) rest

/-- Embedding of `parseExistingHtmlContent`: explicit placeholder
markers win, then a line-based scan for a `<main>` region, then the
first `<script>` line, then `</body>`, else the whole document is the
prologue.  A zero split index from one scan (not found, or found on
line zero) falls through to the next scan, as in the source. -/
def parseExistingHtmlContent (content : List Char) : List Char × List Char :=
  match splitFirst "<!-- MODULES_PLACEHOLDER -->".toList content with
  | some (pre, post) => (pre, post)
  | none =>
    match splitFirst "\x7b\x7b.Modules\x7d\x7d".toList content with
    | some (pre, post) => (pre, post)
    | none =>
      let lines := splitOnChar '\n' content
      let splitIndex := findMainIdx 0 false lines
      let splitIndex := if splitIndex = 0 then findScriptIdx 0 lines else splitIndex
      let splitIndex := if splitIndex = 0 then findBodyIdx 0 lines else splitIndex
      let splitIndex := if splitIndex = 0 then lines.length else splitIndex
      (joinWithChar '\n' (lines.take splitIndex), joinWithChar '\n' (lines.drop splitIndex))

/-! ### Theorems -/

/-- C1: for a create/write/modify event, an exact identity match is
replaced in place (identity and position unchanged); otherwise the first
byte-equal entry is overwritten in place with the incoming identity and
bytes (nothing appended); otherwise the new entry is appended at the
tail. -/
theorem UpdateContent_create_semantics (h : asset) (filePath event : String)
    (f : contentFile)
    (hev : event = "create" ∨ event = "write" ∨ event = "modify")
    (hpath : f.path = filePath) :
    (∀ i, findFileIndex h.contentMiddle filePath = some i →
      (UpdateContent h filePath event f).contentMiddle = h.contentMiddle.set i f ∧
      (UpdateContent h filePath event f).contentMiddle.get? i =
        some { path := filePath, content := f.content } ∧
      ∃ hi : i < h.contentMiddle.length,
        (h.contentMiddle.get ⟨i, hi⟩).path = filePath ∧
        (UpdateContent h filePath event f).contentMiddle.length = h.contentMiddle.length) ∧
    (findFileIndex h.contentMiddle filePath = none →
      ∀ i, h.contentMiddle.findIdx? (fun g => g.content == f.content) = some i →
        (UpdateContent h filePath event f).contentMiddle =
          h.contentMiddle.set i { path := filePath, content := f.content } ∧
        (UpdateContent h filePath event f).contentMiddle.length =
          h.contentMiddle.length) ∧
    (findFileIndex h.contentMiddle filePath = none →
      h.contentMiddle.findIdx? (fun g => g.content == f.content) = none →
      (UpdateContent h filePath event f).contentMiddle = h.contentMiddle ++ [f]) := by
  have hev' : (event == "create" || event == "write" || event == "modify") = true := by
    rcases hev with h | h | h <;> simp [h]
  refine ⟨?_, ?_, ?_⟩
  · intro i hi
    have hi' : List.findIdx? (fun g => g.path == filePath) h.contentMiddle = some i := hi
    have hmem := List.findIdx?_eq_some_iff_getElem.mp hi'
    rcases hmem with ⟨hlen, hp, _⟩
    refine ⟨?_, ?_, hlen, ?_, ?_⟩
    · simp [UpdateContent, hev', findFileIndex, hi']
    · have hf : f = { path := filePath, content := f.content } := by
        cases f; simp_all
      simp [UpdateContent, hev', findFileIndex, hi', ← hf,
        List.getElem?_set_self, hlen, List.getElem?_eq_getElem]
    · simpa using hp
    · simp [UpdateContent, hev', findFileIndex, hi']
  · intro hnone i hci
    have hnone' : List.findIdx? (fun g => g.path == filePath) h.contentMiddle = none := hnone
    constructor
    · simp [UpdateContent, hev', findFileIndex, hnone', hci]
    · simp [UpdateContent, hev', findFileIndex, hnone', hci]
  · intro hnone hcnone
    have hnone' : List.findIdx? (fun g => g.path == filePath) h.contentMiddle = none := hnone
    simp [UpdateContent, hev', findFileIndex, hnone', hcnone]

/-- Witness for C1 at concrete inputs exercising all three branches. -/
theorem UpdateContent_create_semantics_witness :
    let h0 : asset :=
      { (newAssetFile "style.css" "text/css" ⟨"pub"⟩ none) with
        contentMiddle := [⟨"a.css", ['A']⟩, ⟨"b.css", ['B']⟩] }
    (UpdateContent h0 "a.css" "write" ⟨"a.css", ['C']⟩).contentMiddle =
        [⟨"a.css", ['C']⟩, ⟨"b.css", ['B']⟩] ∧
      (UpdateContent h0 "c.css" "create" ⟨"c.css", ['B']⟩).contentMiddle =
        [⟨"a.css", ['A']⟩, ⟨"c.css", ['B']⟩] ∧
      (UpdateContent h0 "c.css" "create" ⟨"c.css", ['D']⟩).contentMiddle =
        [⟨"a.css", ['A']⟩, ⟨"b.css", ['B']⟩, ⟨"c.css", ['D']⟩] := by
  refine ⟨?_, ?_, ?_⟩
  · have := (UpdateContent_create_semantics
      { (newAssetFile "style.css" "text/css" ⟨"pub"⟩ none) with
        contentMiddle := [⟨"a.css", ['A']⟩, ⟨"b.css", ['B']⟩] }
      "a.css" "write" ⟨"a.css", ['C']⟩ (Or.inr (Or.inl rfl)) rfl).1 0 (by decide)
    rw [this.1]; decide
  · have := ((UpdateContent_create_semantics
      { (newAssetFile "style.css" "text/css" ⟨"pub"⟩ none) with
        contentMiddle := [⟨"a.css", ['A']⟩, ⟨"b.css", ['B']⟩] }
      "c.css" "create" ⟨"c.css", ['B']⟩ (Or.inl rfl) rfl).2.1 (by decide)) 1 (by decide)
    rw [this.1]; decide
  · have := ((UpdateContent_create_semantics
      { (newAssetFile "style.css" "text/css" ⟨"pub"⟩ none) with
        contentMiddle := [⟨"a.css", ['A']⟩, ⟨"b.css", ['B']⟩] }
      "c.css" "create" ⟨"c.css", ['D']⟩ (Or.inl rfl) rfl).2.2 (by decide)) (by decide)
    rw [this]; decide

/-- C4: when the minifier rejects the concatenated content, both the
eager regeneration and the lazy read propagate the error, the handler —
in particular its cached bytes and its (false) valid flag — is left
untouched, and a later call with a corrected minifier regenerates
successfully instead of serving a cached error. -/
theorem minify_error_not_cached (m : Minifier) (h : asset) (e : String)
    (hm : m h.mediatype (WriteContent h) = Except.error e)
    (hv : h.cacheValid = false) :
    RegenerateCache m h = (some e, h) ∧
    GetMinifiedContent m h = (Except.error e, h) ∧
    (RegenerateCache m h).2.cacheValid = false ∧
    (RegenerateCache m h).2.cachedMinified = h.cachedMinified ∧
    (∀ (m' : Minifier) (b : List Char),
      m' h.mediatype (WriteContent h) = Except.ok b →
      (GetMinifiedContent m' (RegenerateCache m h).2).1 = Except.ok b) := by
  refine ⟨?_, ?_, ?_, ?_, ?_⟩
  · simp [RegenerateCache, hm]
  · simp [GetMinifiedContent, hv, hm]
  · simp [RegenerateCache, hm, hv]
  · simp [RegenerateCache, hm]
  · intro m' b hb
    simp [RegenerateCache, hm, GetMinifiedContent, hv, hb]

/-- Witness for C4: a failing minifier on a concrete handler. -/
theorem minify_error_not_cached_witness :
    (fun (_ : String) (_ : List Char) => (Except.error "parse error" : Except String (List Char)))
        "text/css" (WriteContent (newAssetFile "style.css" "text/css" ⟨"pub"⟩ none)) =
      Except.error "parse error" ∧
    (newAssetFile "style.css" "text/css" ⟨"pub"⟩ none).cacheValid = false ∧
    RegenerateCache
        (fun _ _ => (Except.error "parse error" : Except String (List Char)))
        (newAssetFile "style.css" "text/css" ⟨"pub"⟩ none) =
      (some "parse error", newAssetFile "style.css" "text/css" ⟨"pub"⟩ none) := by
  refine ⟨rfl, rfl, ?_⟩
  exact (minify_error_not_cached
    (fun _ _ => (Except.error "parse error" : Except String (List Char)))
    (newAssetFile "style.css" "text/css" ⟨"pub"⟩ none) "parse error" rfl rfl).1

/-- C8: reading the minified content twice with no intervening mutation
returns the same result both times (in particular byte-identical output
when the first read succeeds); the minifier is a deterministic external
function. -/
theorem getMinifiedContent_idempotent (m : Minifier) (h : asset) :
    (GetMinifiedContent m (GetMinifiedContent m h).2).1 = (GetMinifiedContent m h).1 := by
  by_cases hv : h.cacheValid
  · simp [GetMinifiedContent, hv]
  · simp only [GetMinifiedContent, hv]
    cases hm : m h.mediatype (WriteContent h) with
    | error e => simp [GetMinifiedContent, hv, hm]
    | ok b => simp [GetMinifiedContent, hv, hm]

/-- C10: a failing initializer is silently discarded — the concatenated
content equals that of the same handler with no initializer (prologue,
body, epilogue only) — and eager or lazy regeneration still succeeds and
marks the cache valid whenever the minifier accepts that content. -/
theorem initializer_error_discarded (h : asset) (e : String)
    (hinit : h.initCode = some (Except.error e)) :
    WriteContent h = WriteContent { h with initCode := none } ∧
    WriteContent h =
      sectionChars h.contentOpen ++ sectionChars h.contentMiddle ++
        sectionChars h.contentClose ∧
    (∀ (m : Minifier) (b : List Char),
      m h.mediatype (WriteContent h) = Except.ok b →
      RegenerateCache m h = (none, { h with cachedMinified := b, cacheValid := true }) ∧
      (h.cacheValid = false →
        GetMinifiedContent m h =
          (Except.ok b, { h with cachedMinified := b, cacheValid := true }))) := by
  refine ⟨?_, ?_, ?_⟩
  · simp [WriteContent, hinit]
  · simp [WriteContent, hinit]
  · intro m b hb
    constructor
    · simp [RegenerateCache, hb]
    · intro hv
      simp [GetMinifiedContent, hv, hb]

/-- Witness for C10: a concrete handler whose initializer errors and a
minifier accepting the concatenation. -/
theorem initializer_error_discarded_witness :
    let h0 : asset :=
      { (newAssetFile "script.js" "text/javascript" ⟨"pub"⟩
          (some (Except.error "init failed"))) with
        contentMiddle := [⟨"m.js", "var x=1;".toList⟩] }
    h0.initCode = some (Except.error "init failed") ∧
    WriteContent h0 = WriteContent { h0 with initCode := none } ∧
    RegenerateCache (fun _ bs => Except.ok bs) h0 =
      (none, { h0 with cachedMinified := "var x=1;\n".toList, cacheValid := true }) := by
  refine ⟨rfl, ?_, ?_⟩
  · exact (initializer_error_discarded _ "init failed" rfl).1
  · have := ((initializer_error_discarded
      { (newAssetFile "script.js" "text/javascript" ⟨"pub"⟩
          (some (Except.error "init failed"))) with
        contentMiddle := [⟨"m.js", "var x=1;".toList⟩] } "init failed" rfl).2.2
      (fun _ bs => Except.ok bs) ("var x=1;\n".toList) (by rfl)).1
    exact this

/-- C5: registering a fresh icon id succeeds and adds the id to the
registry; registering the same id again fails with the distinct
"already registered" error and returns the registry state — icon
registry and sprite body sequence included — exactly as it was after
the first call. -/
theorem addIcon_collision_unchanged (c : AssetMin) (id : String) (A B : List Char)
    (hfresh : c.registeredIconIDs.contains id = false) :
    (addIcon c id A).1 = none ∧
    (addIcon c id A).2.registeredIconIDs.contains id = true ∧
    addIcon (addIcon c id A).2 id B =
      (some ("icon already registered: " ++ id), (addIcon c id A).2) := by
  have hni : id ∉ c.registeredIconIDs := by simpa using hfresh
  refine ⟨?_, ?_, ?_⟩
  · simp [addIcon, hni]
  · simp [addIcon, hni]
  · simp [addIcon, hni]

/-- Witness for C5 at a concrete registry and icon contents. -/
theorem addIcon_collision_unchanged_witness :
    let c0 : AssetMin :=
      { ssrActive := false, onSSRCompile := none, buildOnDisk := false
        mainStyleCssHandler := newAssetFile "style.css" "text/css" ⟨"pub"⟩ none
        mainJsHandler := newAssetFile "script.js" "text/javascript" ⟨"pub"⟩ none
        spriteSvgHandler := NewSvgHandler ⟨"pub"⟩ "sprite.svg"
        faviconSvgHandler := NewFaviconSvgHandler ⟨"pub"⟩ "favicon.svg"
        indexHtmlHandler := newAssetFile "index.html" "text/html" ⟨"pub"⟩ none
        registeredIconIDs := [] }
    c0.registeredIconIDs.contains "x" = false ∧
    (addIcon c0 "x" "<path d=\"A\"/>".toList).1 = none ∧
    addIcon (addIcon c0 "x" "<path d=\"A\"/>".toList).2 "x" "<path d=\"B\"/>".toList =
      (some ("icon already registered: " ++ "x"),
        (addIcon c0 "x" "<path d=\"A\"/>".toList).2) := by
  intro c0
  refine ⟨by decide, ?_, ?_⟩
  · exact (addIcon_collision_unchanged c0 "x" "<path d=\"A\"/>".toList
      "<path d=\"B\"/>".toList (by decide)).1
  · exact (addIcon_collision_unchanged c0 "x" "<path d=\"A\"/>".toList
      "<path d=\"B\"/>".toList (by decide)).2.2

/-- C3: a create event for a fragment that is a full HTML document is
rejected silently — no error and the registry state, in particular the
HTML bundle's body sequence, is completely unchanged — while a create
event for an ordinary fragment with a fresh identity and fresh bytes
processed alongside it is still appended exactly once at the tail. -/
theorem html_full_document_rejected (c : AssetMin) (pF pG : String)
    (F G : List Char)
    (hF : isFullHtmlDocument F = true)
    (hG : isFullHtmlDocument G = false)
    (hfreshPath : findFileIndex c.indexHtmlHandler.contentMiddle pG = none)
    (hfreshContent :
      c.indexHtmlHandler.contentMiddle.findIdx? (fun g => g.content == G) = none) :
    UpdateFileContentInMemory c pF ".html" "create" F = Except.ok (HKind.html, c) ∧
    (∃ c' : AssetMin,
      UpdateFileContentInMemory c pG ".html" "create" G = Except.ok (HKind.html, c') ∧
      c'.indexHtmlHandler.contentMiddle =
        c.indexHtmlHandler.contentMiddle ++ [{ path := pG, content := G }] ∧
      c'.indexHtmlHandler.contentMiddle.countP
        (fun g => g.path == pG && g.content == G) = 1) := by
  have hfreshPath' :
      List.findIdx? (fun g => g.path == pG) c.indexHtmlHandler.contentMiddle = none :=
    hfreshPath
  constructor
  · simp [UpdateFileContentInMemory, hF]
  · refine ⟨{ c with indexHtmlHandler :=
        UpdateContent c.indexHtmlHandler pG "create" { path := pG, content := G } },
      ?_, ?_, ?_⟩
    · simp [UpdateFileContentInMemory, hG]
    · simp [UpdateContent, findFileIndex, hfreshPath', hfreshContent]
    · have hzero :
          c.indexHtmlHandler.contentMiddle.countP
            (fun g => g.path == pG && g.content == G) = 0 := by
        rw [List.countP_eq_zero]
        intro g hg
        have := List.findIdx?_eq_none_iff.mp hfreshPath' g hg
        simp_all
      simp only [UpdateContent, findFileIndex, hfreshPath', hfreshContent]
      simp [List.countP_append, hzero]

/-- Witness for C3: the miniature full template document and an
ordinary fragment from the repository's test scenario. -/
theorem html_full_document_rejected_witness :
    let c0 : AssetMin :=
      { ssrActive := false, onSSRCompile := none, buildOnDisk := false
        mainStyleCssHandler := newAssetFile "style.css" "text/css" ⟨"pub"⟩ none
        mainJsHandler := newAssetFile "script.js" "text/javascript" ⟨"pub"⟩ none
        spriteSvgHandler := NewSvgHandler ⟨"pub"⟩ "sprite.svg"
        faviconSvgHandler := NewFaviconSvgHandler ⟨"pub"⟩ "favicon.svg"
        indexHtmlHandler := newAssetFile "index.html" "text/html" ⟨"pub"⟩ none
        registeredIconIDs := [] }
    let F := "<!doctype html>\n<html>\n<body>\n<main>t</main>\n</body>\n</html>".toList
    let G := "<div class=\"module-test\">fragment</div>".toList
    isFullHtmlDocument F = true ∧
    UpdateFileContentInMemory c0 "modules/template.html" ".html" "create" F =
      Except.ok (HKind.html, c0) ∧
    (∃ c' : AssetMin,
      UpdateFileContentInMemory c0 "modules/module1.html" ".html" "create" G =
        Except.ok (HKind.html, c') ∧
      c'.indexHtmlHandler.contentMiddle =
        [{ path := "modules/module1.html", content := G }]) := by
  intro c0 F G
  refine ⟨by decide, ?_, ?_⟩
  · exact (html_full_document_rejected c0 "modules/template.html" "p" F G
      (by decide) (by decide) (by decide) (by decide)).1
  · obtain ⟨c', h1, h2, _⟩ :=
      (html_full_document_rejected c0 "p" "modules/module1.html" F G
        (by decide) (by decide) (by decide) (by decide)).2
    exact ⟨c', h1, by simpa using h2⟩

/-- C9 (amended): when SSR delegation is not active, a file event whose
path matches one of the five output paths (exactly or
case-insensitively, after normalization) returns a nil error and leaves
the whole registry state unchanged; the statement is uniform in the file
system `fs`, so the file is never read. -/
theorem newFileEvent_output_path_skipped
    (fs : String → Except String (List Char)) (clean : String → String)
    (m : Minifier) (disk : String → List Char → Option String) (c : AssetMin)
    (extension filePath event : String)
    (hssr : c.ssrActive = false)
    (hout : isOutputPath clean c filePath = true) :
    NewFileEvent fs clean m disk c extension filePath event = (none, c) := by
  simp [NewFileEvent, hssr, hout]

/-- Witness for C9 at a concrete registry, with the stylesheet output
path as the event path. -/
theorem newFileEvent_output_path_skipped_witness :
    let c0 : AssetMin :=
      { ssrActive := false, onSSRCompile := none, buildOnDisk := false
        mainStyleCssHandler := newAssetFile "style.css" "text/css" ⟨"pub"⟩ none
        mainJsHandler := newAssetFile "script.js" "text/javascript" ⟨"pub"⟩ none
        spriteSvgHandler := NewSvgHandler ⟨"pub"⟩ "sprite.svg"
        faviconSvgHandler := NewFaviconSvgHandler ⟨"pub"⟩ "favicon.svg"
        indexHtmlHandler := newAssetFile "index.html" "text/html" ⟨"pub"⟩ none
        registeredIconIDs := [] }
    c0.ssrActive = false ∧
    isOutputPath (fun s => s) c0 "PUB/Style.css" = true ∧
    NewFileEvent (fun _ => Except.error "must not read") (fun s => s)
        (fun _ bs => Except.ok bs) (fun _ _ => none) c0 ".css" "PUB/Style.css" "write" =
      (none, c0) := by
  intro c0
  refine ⟨rfl, by decide, ?_⟩
  exact newFileEvent_output_path_skipped (fun _ => Except.error "must not read")
    (fun s => s) (fun _ bs => Except.ok bs) (fun _ _ => none) c0
    ".css" "PUB/Style.css" "write" rfl (by decide)

/-- C9 counterexample: the claim as stated is false because the SSR
delegation branch runs before the output-path check — with SSR active
and an erroring external compiler, an event for the stylesheet output
path returns that error rather than nil. -/
theorem newFileEvent_output_path_counterexample :
    let c1 : AssetMin :=
      { ssrActive := true, onSSRCompile := some "ssr compile failed", buildOnDisk := false
        mainStyleCssHandler := newAssetFile "style.css" "text/css" ⟨"pub"⟩ none
        mainJsHandler := newAssetFile "script.js" "text/javascript" ⟨"pub"⟩ none
        spriteSvgHandler := NewSvgHandler ⟨"pub"⟩ "sprite.svg"
        faviconSvgHandler := NewFaviconSvgHandler ⟨"pub"⟩ "favicon.svg"
        indexHtmlHandler := newAssetFile "index.html" "text/html" ⟨"pub"⟩ none
        registeredIconIDs := [] }
    isOutputPath (fun s => s) c1 "pub/style.css" = true ∧
    (NewFileEvent (fun _ => Except.ok []) (fun s => s) (fun _ bs => Except.ok bs)
        (fun _ _ => none) c1 ".css" "pub/style.css" "write").1 =
      some "ssr compile failed" := by
  exact ⟨by decide, rfl⟩

/-- After one create event for identity `p` on a body holding at most
one entry with that identity, the entries with identity `p` are exactly
one, carrying the event's bytes. -/
theorem UpdateContent_create_step (h : asset) (p : String) (cnt : List Char)
    (hcount : h.contentMiddle.countP (fun g => g.path == p) ≤ 1) :
    (UpdateContent h p "create" { path := p, content := cnt }).contentMiddle.filter
      (fun g => g.path == p) = [{ path := p, content := cnt }] := by
  set l := h.contentMiddle with hl
  cases hidx : List.findIdx? (fun g => g.path == p) l with
  | some i =>
    obtain ⟨hlen, hp, _⟩ := List.findIdx?_eq_some_iff_getElem.mp hidx
    have hdecomp : l = l.take i ++ l[i] :: l.drop (i + 1) := by
      conv_lhs => rw [← List.take_append_drop i l]
      rw [List.drop_eq_getElem_cons hlen]
    have hcnt' :
        l.countP (fun g => g.path == p) =
          (l.take i).countP (fun g => g.path == p) + 1 +
            (l.drop (i + 1)).countP (fun g => g.path == p) := by
      conv_lhs => rw [hdecomp]
      rw [List.countP_append, List.countP_cons]
      simp [hp]
      omega
    have htake : (l.take i).countP (fun g => g.path == p) = 0 := by omega
    have hdrop : (l.drop (i + 1)).countP (fun g => g.path == p) = 0 := by omega
    have htake' : (l.take i).filter (fun g => g.path == p) = [] := by
      rw [List.filter_eq_nil_iff]
      exact fun a ha => (List.countP_eq_zero.mp htake) a ha
    have hdrop' : (l.drop (i + 1)).filter (fun g => g.path == p) = [] := by
      rw [List.filter_eq_nil_iff]
      exact fun a ha => (List.countP_eq_zero.mp hdrop) a ha
    have hset : l.set i { path := p, content := cnt } =
        l.take i ++ { path := p, content := cnt } :: l.drop (i + 1) := by
      rw [List.set_eq_take_append_cons_drop]
      simp [hlen]
    have hbody : (UpdateContent h p "create" { path := p, content := cnt }).contentMiddle =
        l.take i ++ { path := p, content := cnt } :: l.drop (i + 1) := by
      simp [UpdateContent, findFileIndex, ← hl, hidx, hset]
    rw [hbody, List.filter_append, htake', List.filter_cons]
    simp [hdrop']
  | none =>
    have hall : ∀ g ∈ l, ¬(g.path == p) = true := by
      intro g hg
      simp [List.findIdx?_eq_none_iff.mp hidx g hg]
    have hfilter : l.filter (fun g => g.path == p) = [] :=
      List.filter_eq_nil_iff.mpr hall
    cases hc : List.findIdx? (fun g => g.content == cnt) l with
    | some i =>
      obtain ⟨hlen, _, _⟩ := List.findIdx?_eq_some_iff_getElem.mp hc
      have htake' : (l.take i).filter (fun g => g.path == p) = [] := by
        rw [List.filter_eq_nil_iff]
        exact fun a ha => hall a (List.mem_of_mem_take ha)
      have hdrop' : (l.drop (i + 1)).filter (fun g => g.path == p) = [] := by
        rw [List.filter_eq_nil_iff]
        exact fun a ha => hall a (List.mem_of_mem_drop ha)
      have hset : l.set i { path := p, content := cnt } =
          l.take i ++ { path := p, content := cnt } :: l.drop (i + 1) := by
        rw [List.set_eq_take_append_cons_drop]
        simp [hlen]
      have hbody : (UpdateContent h p "create" { path := p, content := cnt }).contentMiddle =
          l.take i ++ { path := p, content := cnt } :: l.drop (i + 1) := by
        simp [UpdateContent, findFileIndex, ← hl, hidx, hc, hset]
      rw [hbody, List.filter_append, htake', List.filter_cons]
      simp [hdrop']
    | none =>
      have hbody : (UpdateContent h p "create" { path := p, content := cnt }).contentMiddle =
          l ++ [{ path := p, content := cnt }] := by
        simp [UpdateContent, findFileIndex, ← hl, hidx, hc]
      rw [hbody, List.filter_append, hfilter]
      simp

/-- C2 (amended): starting from a body sequence with at most one entry
for the identity, a nonempty sequence of create events with that
identity leaves exactly one entry for it, carrying the bytes of the
last event. -/
theorem UpdateContent_dedup_amended (h : asset) (p : String) (e : List Char)
    (es : List (List Char))
    (hcount : h.contentMiddle.countP (fun g => g.path == p) ≤ 1) :
    (((e :: es).foldl (fun hh cnt => UpdateContent hh p "create" { path := p, content := cnt })
        h).contentMiddle.filter (fun g => g.path == p)) =
      [{ path := p, content := es.getLastD e }] := by
  induction es generalizing h e with
  | nil =>
    simpa using UpdateContent_create_step h p e hcount
  | cons e2 es ih =>
    have hstep := UpdateContent_create_step h p e hcount
    have hcount' :
        (UpdateContent h p "create" { path := p, content := e }).contentMiddle.countP
          (fun g => g.path == p) ≤ 1 := by
      rw [List.countP_eq_length_filter, hstep]
      simp
    have hmain := ih (UpdateContent h p "create" { path := p, content := e }) e2 hcount'
    rw [List.foldl_cons, List.getLastD_cons]
    exact hmain

/-- Witness for C2: three create events for one identity starting from
an empty body. -/
theorem UpdateContent_dedup_amended_witness :
    let h0 : asset := newAssetFile "style.css" "text/css" ⟨"pub"⟩ none
    h0.contentMiddle.countP (fun g => g.path == "m.css") ≤ 1 ∧
    ((["A".toList, "B".toList, "C".toList].foldl
        (fun hh cnt => UpdateContent hh "m.css" "create" { path := "m.css", content := cnt })
        h0).contentMiddle.filter (fun g => g.path == "m.css")) =
      [{ path := "m.css", content := "C".toList }] := by
  intro h0
  refine ⟨by decide, ?_⟩
  exact UpdateContent_dedup_amended h0 "m.css" "A".toList ["B".toList, "C".toList]
    (by decide)

/-- C2 counterexample: the claim quantifies over every starting body
sequence, but a body already holding two entries with the identity
keeps two entries after a create event for it — the engine replaces the
first match and never prunes the stale duplicate. -/
theorem updateContent_dedup_counterexample :
    (UpdateContent
        { (newAssetFile "style.css" "text/css" ⟨"pub"⟩ none) with
          contentMiddle := [⟨"p.css", ['A']⟩, ⟨"p.css", ['B']⟩] }
        "p.css" "create" ⟨"p.css", ['C']⟩).contentMiddle.countP
      (fun g => g.path == "p.css") = 2 := by
  decide

/-- Specification of the `<main>` line scan: a nonzero result names a
line that contains `</main>` (and not `<main>`), offset by the start
index, and — when the scan started outside a `<main>` region — some
strictly earlier line contains `<main>`. -/
theorem findMainIdx_spec (ls : List (List Char)) (n : Nat) (inM : Bool)
    (hk : findMainIdx n inM ls ≠ 0) :
    ∃ j, j < ls.length ∧ findMainIdx n inM ls = n + j ∧
      containsSub "</main>".toList (lowerChars (trimSpace (ls.getD j []))) = true ∧
      containsSub "<main".toList (lowerChars (trimSpace (ls.getD j []))) = false ∧
      (inM = false → ∃ j', j' < j ∧
        containsSub "<main".toList (lowerChars (trimSpace (ls.getD j' []))) = true) := by
  induction ls generalizing n inM with
  | nil => simp [findMainIdx] at hk
  | cons l rest ih =>
    by_cases h1 : containsSub "<main".toList (lowerChars (trimSpace l)) = true
    · have hrec : findMainIdx n inM (l :: rest) = findMainIdx (n + 1) true rest := by
        simp only [findMainIdx, h1, if_true]
      rw [hrec] at hk ⊢
      obtain ⟨j, hj, heq, hclose, hnomain, _⟩ := ih (n + 1) true hk
      refine ⟨j + 1, by simpa using hj, ?_, ?_, ?_, ?_⟩
      · rw [heq]; omega
      · simpa only [List.getD_cons_succ] using hclose
      · simpa only [List.getD_cons_succ] using hnomain
      · intro _
        refine ⟨0, Nat.succ_pos j, ?_⟩
        simpa only [List.getD_cons_zero] using h1
    · by_cases h2 : (inM && containsSub "</main>".toList (lowerChars (trimSpace l))) = true
      · have hin : inM = true := by
          cases inM
          · simp at h2
          · rfl
        have hclose : containsSub "</main>".toList (lowerChars (trimSpace l)) = true := by
          cases hc : containsSub "</main>".toList (lowerChars (trimSpace l))
          · rw [hin, hc] at h2; simp at h2
          · rfl
        have hrec : findMainIdx n inM (l :: rest) = n := by
          have h1' : containsSub "<main".toList (lowerChars (trimSpace l)) = false := by
            cases hc : containsSub "<main".toList (lowerChars (trimSpace l))
            · rfl
            · exact absurd hc h1
          simp only [findMainIdx, h1', Bool.false_eq_true, if_false, h2, if_true]
        refine ⟨0, by simp, by simpa using hrec, ?_, ?_, ?_⟩
        · simpa only [List.getD_cons_zero] using hclose
        · have h1' : containsSub "<main".toList (lowerChars (trimSpace l)) = false := by
            cases hc : containsSub "<main".toList (lowerChars (trimSpace l))
            · rfl
            · exact absurd hc h1
          simpa only [List.getD_cons_zero] using h1'
        · intro hfalse; rw [hfalse] at hin; exact absurd hin (by simp)
      · have h1' : containsSub "<main".toList (lowerChars (trimSpace l)) = false := by
          cases hc : containsSub "<main".toList (lowerChars (trimSpace l))
          · rfl
          · exact absurd hc h1
        have h2' : (inM && containsSub "</main>".toList (lowerChars (trimSpace l))) = false := by
          cases hc : (inM && containsSub "</main>".toList (lowerChars (trimSpace l)))
          · rfl
          · exact absurd hc h2
        have hrec : findMainIdx n inM (l :: rest) = findMainIdx (n + 1) inM rest := by
          simp only [findMainIdx, h1', Bool.false_eq_true, if_false, h2']
        rw [hrec] at hk ⊢
        obtain ⟨j, hj, heq, hclose, hnomain, hearlier⟩ := ih (n + 1) inM hk
        refine ⟨j + 1, by simpa using hj, ?_, ?_, ?_, ?_⟩
        · rw [heq]; omega
        · simpa only [List.getD_cons_succ] using hclose
        · simpa only [List.getD_cons_succ] using hnomain
        · intro hfalse
          obtain ⟨j', hj', hmain⟩ := hearlier hfalse
          refine ⟨j' + 1, by omega, ?_⟩
          simpa only [List.getD_cons_succ] using hmain

/-- C7 (amended): for a document without the explicit placeholder
markers whose line scan finds a `</main>` line strictly after a
`<main>` line (the scan is line-based), `split` places the boundary at
the start of that `</main>` line — fragments land inside `<main>` —
regardless of any `<script>` tag; the prologue and epilogue are the
lines before and from that line. -/
theorem parseExistingHtmlContent_main_priority (content : List Char) (i : Nat)
    (hm1 : splitFirst "<!-- MODULES_PLACEHOLDER -->".toList content = none)
    (hm2 : splitFirst "\x7b\x7b.Modules\x7d\x7d".toList content = none)
    (hmain : findMainIdx 0 false (splitOnChar '\n' content) = i)
    (hi : i ≠ 0) :
    parseExistingHtmlContent content =
      (joinWithChar '\n' ((splitOnChar '\n' content).take i),
       joinWithChar '\n' ((splitOnChar '\n' content).drop i)) ∧
    containsSub "</main>".toList
      (lowerChars (trimSpace ((splitOnChar '\n' content).getD i []))) = true ∧
    (∃ j, j < i ∧
      containsSub "<main".toList
        (lowerChars (trimSpace ((splitOnChar '\n' content).getD j []))) = true) := by
  obtain ⟨j, hj, heq, hclose, -, hearlier⟩ :=
    findMainIdx_spec (splitOnChar '\n' content) 0 false (hmain ▸ hi)
  have hij : i = j := by rw [hmain] at heq; omega
  subst hij
  refine ⟨?_, hclose, ?_⟩
  · simp only [parseExistingHtmlContent, hm1, hm2, hmain]
    simp [hi]
  · simpa using hearlier rfl

/-- Witness for C7 at the multi-line document shape from the
repository's tests: the boundary lands before the `</main>` line even
though a `<script>` tag follows. -/
theorem parseExistingHtmlContent_main_priority_witness :
    let doc := "<body>\n<main>\nx\n</main>\n<script src=\"s\"></script>\n</body>".toList
    parseExistingHtmlContent doc =
      ("<body>\n<main>\nx".toList,
       "</main>\n<script src=\"s\"></script>\n</body>".toList) ∧
    containsSub "</main>".toList
      (lowerChars (trimSpace ((splitOnChar '\n' doc).getD 3 []))) = true := by
  intro doc
  have h := parseExistingHtmlContent_main_priority doc 3 (by decide) (by decide)
    (by decide) (by decide)
  refine ⟨?_, h.2.1⟩
  rw [h.1]; decide

/-- C7 counterexample: the scan is line-based, so a document whose
`<main>...</main>` region sits on a single line is not recognized — the
boundary falls back to the `<script>` line and the closing `</main>`
tag ends up inside the prologue, contradicting the claim for this
document which contains both a `<main>...</main>` region and a
`<script>` tag. -/
theorem parseExistingHtmlContent_counterexample :
    let doc := "<main>x</main>\n<script>y</script>\n</body>".toList
    containsSub "<main".toList (lowerChars doc) = true ∧
    containsSub "</main>".toList (lowerChars doc) = true ∧
    containsSub "<script".toList (lowerChars doc) = true ∧
    parseExistingHtmlContent doc =
      ("<main>x</main>".toList, "<script>y</script>\n</body>".toList) ∧
    containsSub "</main>".toList (parseExistingHtmlContent doc).1 = true ∧
    containsSub "</main>".toList (parseExistingHtmlContent doc).2 = false := by
  exact ⟨by decide, by decide, by decide, by decide, by decide, by decide⟩

/-- The sprite wrapper's opening-tag prefix, whose occurrence count
states the nesting guard. -/
def svgTag : List Char := "<svg".toList

/-- No nonempty suffix of `xs` is a proper prefix of `p`: occurrences
of `p` cannot cross the right boundary of `xs` in a concatenation. -/
def NoCross (p xs : List Char) : Prop :=
  ∀ s : List Char, s ≠ [] → s <:+ xs → s <+: p → p.length ≤ s.length

theorem noCross_nil (p : List Char) : NoCross p [] := by
  intro s hs hsuf _
  rw [List.suffix_nil] at hsuf
  exact absurd hsuf hs

/-- A list ending in a character other than `<`, `s`, `v` admits no
crossing occurrence of the `<svg` tag. -/
theorem noCross_concat (zs : List Char) (c : Char)
    (hc : c ≠ '<' ∧ c ≠ 's' ∧ c ≠ 'v') : NoCross svgTag (zs ++ [c]) := by
  intro s hs hsuf hpre
  by_contra hlt
  push_neg at hlt
  obtain ⟨t, ht⟩ := hsuf
  have hlast : s.getLast? = some c := by
    have h := congrArg List.getLast? ht
    rw [List.getLast?_append_of_ne_nil t hs, List.getLast?_concat] at h
    exact h
  have hsval : s = svgTag.take s.length := List.prefix_iff_eq_take.mp hpre
  have h1 : 1 ≤ s.length := by
    cases s with
    | nil => exact absurd rfl hs
    | cons a as => simp
  have hlen4 : svgTag.length = 4 := by decide
  rw [hlen4] at hlt
  have hcases : s.length = 1 ∨ s.length = 2 ∨ s.length = 3 := by omega
  rcases hcases with h | h | h <;> rw [h] at hsval <;> rw [hsval] at hlast
  · apply hc.1
    have h2 : (svgTag.take 1).getLast? = some '<' := by decide
    rw [h2] at hlast
    exact (Option.some.inj hlast).symm
  · apply hc.2.1
    have h2 : (svgTag.take 2).getLast? = some 's' := by decide
    rw [h2] at hlast
    exact (Option.some.inj hlast).symm
  · apply hc.2.2
    have h2 : (svgTag.take 3).getLast? = some 'v' := by decide
    rw [h2] at hlast
    exact (Option.some.inj hlast).symm

/-- Occurrence counting distributes over a concatenation whose left
part admits no crossing occurrence. -/
theorem countSubstr_append (p xs ys : List Char) (hnc : NoCross p xs) :
    countSubstr p (xs ++ ys) = countSubstr p xs + countSubstr p ys := by
  induction xs with
  | nil => simp [countSubstr]
  | cons x xs ih =>
    have hnc' : NoCross p xs := by
      intro s hs hsuf hpre
      exact hnc s hs (hsuf.trans (List.suffix_cons x xs)) hpre
    have hiff : p.isPrefixOf (x :: xs ++ ys) = p.isPrefixOf (x :: xs) := by
      by_cases hp : p <+: (x :: xs)
      · rw [List.isPrefixOf_iff_prefix.mpr hp,
          List.isPrefixOf_iff_prefix.mpr (hp.trans (List.prefix_append (x :: xs) ys))]
      · have hnp : ¬ p <+: ((x :: xs) ++ ys) := by
          intro hcontra
          by_cases hlen : p.length ≤ (x :: xs).length
          · apply hp
            have hpeq : p = List.take p.length (x :: xs) := by
              have h1 : p = List.take p.length ((x :: xs) ++ ys) :=
                List.prefix_iff_eq_take.mp hcontra
              rw [List.take_append_of_le_length hlen] at h1
              exact h1
            rw [hpeq]
            exact List.take_prefix _ _
          · push_neg at hlen
            have hxp : (x :: xs) <+: p :=
              List.prefix_of_prefix_length_le (List.prefix_append _ _) hcontra
                (le_of_lt hlen)
            have hge := hnc (x :: xs) (by simp) (List.suffix_refl _) hxp
            simp only [List.length_cons] at hge hlen
            omega
        have h1 : p.isPrefixOf ((x :: xs) ++ ys) = false := by
          cases hb : p.isPrefixOf ((x :: xs) ++ ys)
          · rfl
          · exact absurd (List.isPrefixOf_iff_prefix.mp hb) hnp
        have h2 : p.isPrefixOf (x :: xs) = false := by
          cases hb : p.isPrefixOf (x :: xs)
          · rfl
          · exact absurd (List.isPrefixOf_iff_prefix.mp hb) hp
        rw [List.cons_append] at h1 ⊢
        rw [h1, h2]
    have hstep : countSubstr p ((x :: xs) ++ ys) =
        (if p.isPrefixOf (x :: xs ++ ys) then 1 else 0) + countSubstr p (xs ++ ys) := rfl
    have hstep2 : countSubstr p (x :: xs) =
        (if p.isPrefixOf (x :: xs) then 1 else 0) + countSubstr p xs := rfl
    rw [hstep, hstep2, hiff, ih hnc']
    omega

/-- Appending one character that `p` does not end with leaves the
occurrence count unchanged. -/
theorem countSubstr_append_singleton (p zs : List Char) (c : Char) (hp : p ≠ [])
    (hlast : p.getLast? ≠ some c) :
    countSubstr p (zs ++ [c]) = countSubstr p zs := by
  induction zs with
  | nil =>
    have hnp : p.isPrefixOf [c] = false := by
      cases hb : p.isPrefixOf [c]
      · rfl
      · exfalso
        have hpre := List.isPrefixOf_iff_prefix.mp hb
        have hle := hpre.length_le
        have hlen1 : p.length = 1 := by
          cases p with
          | nil => exact absurd rfl hp
          | cons a as =>
            have h2 : as.length + 1 ≤ 1 := by simpa using hle
            simp only [List.length_cons]
            omega
        have : p = [c] := by
          rw [List.prefix_iff_eq_take] at hpre
          rw [hpre, hlen1]
          rfl
        rw [this] at hlast
        simp at hlast
    have : countSubstr p ([] ++ [c]) =
        (if p.isPrefixOf [c] then 1 else 0) + countSubstr p [] := rfl
    rw [this, hnp]
    simp [countSubstr]
  | cons z zs ih =>
    have hiff : p.isPrefixOf (z :: zs ++ [c]) = p.isPrefixOf (z :: zs) := by
      by_cases hpz : p <+: (z :: zs)
      · rw [List.isPrefixOf_iff_prefix.mpr hpz,
          List.isPrefixOf_iff_prefix.mpr (hpz.trans (List.prefix_append (z :: zs) [c]))]
      · have hnp : ¬ p <+: ((z :: zs) ++ [c]) := by
          intro hcontra
          have hle := hcontra.length_le
          by_cases hlen : p.length ≤ (z :: zs).length
          · apply hpz
            have hpeq : p = List.take p.length (z :: zs) := by
              have h1 : p = List.take p.length ((z :: zs) ++ [c]) :=
                List.prefix_iff_eq_take.mp hcontra
              rw [List.take_append_of_le_length hlen] at h1
              exact h1
            rw [hpeq]
            exact List.take_prefix _ _
          · push_neg at hlen
            have hplen : p.length = ((z :: zs) ++ [c]).length := by
              simp only [List.length_append, List.length_cons, List.length_nil] at hle hlen ⊢
              omega
            have hpfull : p = (z :: zs) ++ [c] := by
              have h1 : p = List.take p.length ((z :: zs) ++ [c]) :=
                List.prefix_iff_eq_take.mp hcontra
              rw [hplen, List.take_length] at h1
              exact h1
            rw [hpfull, List.getLast?_concat] at hlast
            exact hlast rfl
        have h1 : p.isPrefixOf ((z :: zs) ++ [c]) = false := by
          cases hb : p.isPrefixOf ((z :: zs) ++ [c])
          · rfl
          · exact absurd (List.isPrefixOf_iff_prefix.mp hb) hnp
        have h2 : p.isPrefixOf (z :: zs) = false := by
          cases hb : p.isPrefixOf (z :: zs)
          · rfl
          · exact absurd (List.isPrefixOf_iff_prefix.mp hb) hpz
        rw [List.cons_append] at h1 ⊢
        rw [h1, h2]
    have hstep : countSubstr p ((z :: zs) ++ [c]) =
        (if p.isPrefixOf (z :: zs ++ [c]) then 1 else 0) + countSubstr p (zs ++ [c]) := rfl
    have hstep2 : countSubstr p (z :: zs) =
        (if p.isPrefixOf (z :: zs) then 1 else 0) + countSubstr p zs := rfl
    rw [hstep, hstep2, hiff, ih]

theorem sectionChars_cons (f : contentFile) (fs : List contentFile) :
    sectionChars (f :: fs) = (f.content ++ ['\n']) ++ sectionChars fs := by
  simp [sectionChars]

/-- Every chunk of a section ends in the newline separator, so `<svg`
occurrences cannot cross chunk boundaries. -/
theorem noCross_newline_chunk (xs : List Char) : NoCross svgTag (xs ++ ['\n']) :=
  noCross_concat xs '\n' ⟨by decide, by decide, by decide⟩

theorem sectionChars_shape (files : List contentFile) :
    sectionChars files = [] ∨ ∃ zs, sectionChars files = zs ++ ['\n'] := by
  induction files with
  | nil => exact Or.inl rfl
  | cons f fs ih =>
    right
    rcases ih with h | ⟨zs, h⟩
    · exact ⟨f.content, by rw [sectionChars_cons, h, List.append_nil]⟩
    · exact ⟨(f.content ++ ['\n']) ++ zs, by
        rw [sectionChars_cons, h]; simp [List.append_assoc]⟩

theorem noCross_sectionChars (files : List contentFile) :
    NoCross svgTag (sectionChars files) := by
  rcases sectionChars_shape files with h | ⟨zs, h⟩ <;> rw [h]
  · exact noCross_nil _
  · exact noCross_newline_chunk zs

/-- The `<svg` count of one section is the sum of its chunks' counts. -/
theorem countSubstr_sectionChars (files : List contentFile) :
    countSubstr svgTag (sectionChars files) =
      (files.map (fun f => countSubstr svgTag (f.content ++ ['\n']))).sum := by
  induction files with
  | nil => simp [sectionChars, countSubstr]
  | cons f fs ih =>
    rw [sectionChars_cons,
      countSubstr_append svgTag _ _ (noCross_newline_chunk f.content), ih]
    simp

/-- Registering a batch of fresh, pairwise distinct icon ids succeeds
and appends exactly one symbol unit per icon, in order, at the tail of
the sprite body, leaving prologue, epilogue and initializer untouched. -/
theorem addIconList_spec (icons : List (String × List Char)) (c : AssetMin)
    (hnodup : (icons.map Prod.fst).Nodup)
    (hfresh : ∀ pr ∈ icons, pr.1 ∉ c.registeredIconIDs) :
    (addIconList c icons).1 = none ∧
    (addIconList c icons).2.spriteSvgHandler.contentOpen =
      c.spriteSvgHandler.contentOpen ∧
    (addIconList c icons).2.spriteSvgHandler.contentClose =
      c.spriteSvgHandler.contentClose ∧
    (addIconList c icons).2.spriteSvgHandler.initCode =
      c.spriteSvgHandler.initCode ∧
    (addIconList c icons).2.spriteSvgHandler.contentMiddle =
      c.spriteSvgHandler.contentMiddle ++
        icons.map (fun pr => ⟨pr.1 ++ ".svg", symbolContent pr.1 pr.2⟩) := by
  induction icons generalizing c with
  | nil => simp [addIconList]
  | cons pr rest ih =>
    obtain ⟨id, raw⟩ := pr
    have hid : id ∉ c.registeredIconIDs := hfresh (id, raw) (List.mem_cons_self _ _)
    have hstep : addIcon c id raw =
        (none,
          { c with
            registeredIconIDs := id :: c.registeredIconIDs
            spriteSvgHandler :=
              AddContentMiddle c.spriteSvgHandler (id ++ ".svg")
                (symbolContent id raw) }) := by
      simp [addIcon, hid]
    have hnodup' : (rest.map Prod.fst).Nodup := by
      simpa using hnodup.of_cons
    have hfresh' : ∀ q ∈ rest,
        q.1 ∉ (id :: c.registeredIconIDs : List String) := by
      intro q hq
      have hq1 : q.1 ∉ c.registeredIconIDs := hfresh q (List.mem_cons_of_mem _ hq)
      have hqid : q.1 ≠ id := by
        intro hcontra
        have hmem : id ∈ rest.map Prod.fst := by
          rw [← hcontra]
          exact List.mem_map_of_mem Prod.fst hq
        have hnd := hnodup
        simp only [List.map_cons] at hnd
        rw [List.nodup_cons] at hnd
        exact hnd.1 hmem
      simp [hq1, hqid]
    have hrec : addIconList c ((id, raw) :: rest) =
        addIconList
          { c with
            registeredIconIDs := id :: c.registeredIconIDs
            spriteSvgHandler :=
              AddContentMiddle c.spriteSvgHandler (id ++ ".svg")
                (symbolContent id raw) } rest := by
      simp [addIconList, hstep]
    obtain ⟨h1, h2, h3, h4, h5⟩ := ih
      { c with
        registeredIconIDs := id :: c.registeredIconIDs
        spriteSvgHandler :=
          AddContentMiddle c.spriteSvgHandler (id ++ ".svg") (symbolContent id raw) }
      hnodup' hfresh'
    rw [hrec]
    refine ⟨h1, ?_, ?_, ?_, ?_⟩
    · rw [h2]; rfl
    · rw [h3]; rfl
    · rw [h4]; rfl
    · rw [h5]
      simp [AddContentMiddle, List.append_assoc]

/-- C6: registering any batch of fresh, distinct icons whose raw
content is svg-wrapped succeeds; each appended body entry is exactly
the `<symbol id=.. viewBox=..>` unit built by `symbolContent` — the
viewBox extracted from the wrapper's opening tag when present,
otherwise the fixed default `0 0 16 16`, around the wrapper-stripped
inner content — and, provided no symbol unit itself contains the
wrapper tag, the assembled sprite contains exactly one `<svg`
occurrence: the bundle's own wrapper. -/
theorem addIcon_sprite_single_wrapper (icons : List (String × List Char))
    (c : AssetMin) (od nm : String)
    (hs : c.spriteSvgHandler = NewSvgHandler ⟨od⟩ nm)
    (hreg : c.registeredIconIDs = [])
    (hnodup : (icons.map Prod.fst).Nodup)
    (hwrap : ∀ pr ∈ icons,
      ("<svg".toList.isPrefixOf (trimSpace pr.2) &&
        "</svg>".toList.isSuffixOf (trimSpace pr.2)) = true)
    (hfree : ∀ pr ∈ icons, countSubstr svgTag (symbolContent pr.1 pr.2) = 0) :
    (addIconList c icons).1 = none ∧
    (addIconList c icons).2.spriteSvgHandler.contentMiddle =
      icons.map (fun pr => ⟨pr.1 ++ ".svg", symbolContent pr.1 pr.2⟩) ∧
    countSubstr svgTag (WriteContent (addIconList c icons).2.spriteSvgHandler) = 1 := by
  have hfresh : ∀ pr ∈ icons, pr.1 ∉ c.registeredIconIDs := by
    intro pr _
    rw [hreg]
    simp
  obtain ⟨h1, h2, h3, h4, h5⟩ := addIconList_spec icons c hnodup hfresh
  have hmid : (addIconList c icons).2.spriteSvgHandler.contentMiddle =
      icons.map (fun pr => ⟨pr.1 ++ ".svg", symbolContent pr.1 pr.2⟩) := by
    rw [h5, hs]
    simp [NewSvgHandler, newAssetFile]
  have hopen : (addIconList c icons).2.spriteSvgHandler.contentOpen =
      (NewSvgHandler ⟨od⟩ nm).contentOpen := by rw [h2, hs]
  have hclose : (addIconList c icons).2.spriteSvgHandler.contentClose =
      (NewSvgHandler ⟨od⟩ nm).contentClose := by rw [h3, hs]
  have hinit : (addIconList c icons).2.spriteSvgHandler.initCode = none := by
    rw [h4, hs]
    rfl
  refine ⟨h1, hmid, ?_⟩
  have hw : WriteContent (addIconList c icons).2.spriteSvgHandler =
      sectionChars ((NewSvgHandler ⟨od⟩ nm).contentOpen) ++
        (sectionChars
            (icons.map (fun pr => ⟨pr.1 ++ ".svg", symbolContent pr.1 pr.2⟩)) ++
          sectionChars ((NewSvgHandler ⟨od⟩ nm).contentClose)) := by
    simp only [WriteContent, hinit, hopen, hclose, hmid]
    rfl
  rw [hw]
  rw [countSubstr_append svgTag _ _ (noCross_sectionChars _)]
  rw [countSubstr_append svgTag _ _ (noCross_sectionChars _)]
  have hoeq : (NewSvgHandler ⟨od⟩ nm).contentOpen =
      [{ path := "sprite-open.svg"
         content := ("<svg class=\"sprite-icons\" xmlns=\"http://www.w3.org/2000/svg\" role=\"img\" aria-hidden=\"true\" focusable=\"false\">\n\t\t<defs>").toList }] :=
    rfl
  have hceq : (NewSvgHandler ⟨od⟩ nm).contentClose =
      [{ path := "sprite-close.svg", content := ("\t\t</defs>\n\t</svg>").toList }] :=
    rfl
  have hopen1 :
      countSubstr svgTag (sectionChars ((NewSvgHandler ⟨od⟩ nm).contentOpen)) = 1 := by
    rw [hoeq]
    decide
  have hclose0 :
      countSubstr svgTag (sectionChars ((NewSvgHandler ⟨od⟩ nm).contentClose)) = 0 := by
    rw [hceq]
    decide
  have hmid0 :
      countSubstr svgTag
        (sectionChars
          (icons.map (fun pr => ⟨pr.1 ++ ".svg", symbolContent pr.1 pr.2⟩))) = 0 := by
    rw [countSubstr_sectionChars]
    apply List.sum_eq_zero
    intro x hx
    simp only [List.map_map, List.mem_map, Function.comp] at hx
    obtain ⟨pr, hpr, hxeq⟩ := hx
    rw [← hxeq]
    rw [countSubstr_append_singleton svgTag _ '\n' (by decide) (by decide)]
    exact hfree pr hpr
  rw [hopen1, hclose0, hmid0]

/-- Witness for C6: two wrapped icons (one carrying a viewBox, one
without) registered into a fresh sprite bundle; the extracted and
default viewBoxes appear in the symbol units, wrappers are stripped,
and the assembled sprite holds a single `<svg`. -/
theorem addIcon_sprite_single_wrapper_witness :
    let c0 : AssetMin :=
      { ssrActive := false, onSSRCompile := none, buildOnDisk := false
        mainStyleCssHandler := newAssetFile "style.css" "text/css" ⟨"pub"⟩ none
        mainJsHandler := newAssetFile "script.js" "text/javascript" ⟨"pub"⟩ none
        spriteSvgHandler := NewSvgHandler ⟨"pub"⟩ "sprite.svg"
        faviconSvgHandler := NewFaviconSvgHandler ⟨"pub"⟩ "favicon.svg"
        indexHtmlHandler := newAssetFile "index.html" "text/html" ⟨"pub"⟩ none
        registeredIconIDs := [] }
    let icons : List (String × List Char) :=
      [("icon-a", "<svg viewBox=\"0 0 24 24\"><path d=\"M1\"/></svg>".toList),
       ("icon-b", "<svg><circle r=\"2\"/></svg>".toList)]
    (addIconList c0 icons).1 = none ∧
    (addIconList c0 icons).2.spriteSvgHandler.contentMiddle =
      [⟨"icon-a.svg",
        "<symbol id=\"icon-a\" viewBox=\"0 0 24 24\"><path d=\"M1\"/></symbol>".toList⟩,
       ⟨"icon-b.svg",
        "<symbol id=\"icon-b\" viewBox=\"0 0 16 16\"><circle r=\"2\"/></symbol>".toList⟩] ∧
    countSubstr svgTag (WriteContent (addIconList c0 icons).2.spriteSvgHandler) = 1 := by
  intro c0 icons
  obtain ⟨h1, h2, h3⟩ := addIcon_sprite_single_wrapper icons c0 "pub" "sprite.svg"
    rfl rfl (by decide) (by decide) (by decide)
  refine ⟨h1, ?_, h3⟩
  rw [h2]
  decide

end Assetmin
